import Mathlib

/-!
Verification of the occupancy-inference core of the
`homey-virtual-occupancy-sensor` repository.

The development shallowly embeds the TypeScript sources:

* `VirtualOccupancySensorController` (the occupancy state machine),
* `BooleanSensorRegistry` / `SensorRegistry` (cached boolean sensor values
  and the aggregate predicates),
* `MotionSensorRegistry` (the per-sensor timeout learner),
* `CheckingSensorRegistry` (the rendezvous/barrier timer), and
* the orchestration glue in `VirtualOccupancySensorDevice`
  (`handleContactSensorEvent`, `onCheckingTimeout`, `onStateChange`,
  `handleCheckingState`).

JavaScript `Map`s are embedded as association lists with `Map.set`
(replace-or-append) semantics, timestamps and millisecond durations as `Int`,
and every fallible or asynchronous side effect (subscription, persistence)
as explicit data so that theorems can talk about it.
-/

/-- The four occupancy states of `lib/types` / the controller
(`empty` is the initial state). -/
inductive OccupancyState : Type
  | empty
  | occupied
  | door_open
  | checking
deriving DecidableEq, Repr, Fintype

/-- The event alphabet of `VirtualOccupancySensorController.registerEvent`
(the current controller variant, whose `EventType` union is
`any_door_open | all_doors_closed | motion_detected | motion_timeout | timeout`). -/
inductive EventType : Type
  | any_door_open
  | all_doors_closed
  | motion_detected
  | motion_timeout
  | timeout
deriving DecidableEq, Repr, Fintype

/-- `VirtualOccupancySensorController.transitionTo`: if the requested state
equals the current state, return without mutating and without invoking the
state-change callback; otherwise update the state and invoke the callback
with the new state.  The result is the new current state paired with the
callback invocation (`none` when no notification fired). -/
def transitionTo (current newState : OccupancyState) :
    OccupancyState × Option OccupancyState :=
  if current = newState then (current, none)
  else (newState, some newState)

/-- `VirtualOccupancySensorController.setOccupancyState` (the forced/manual
path): it calls `transitionTo` directly, bypassing the event table. -/
def setOccupancyState (current target : OccupancyState) :
    OccupancyState × Option OccupancyState :=
  transitionTo current target

/-- `handleEventInEmpty` from the controller source. -/
def handleEventInEmpty (current : OccupancyState) (event : EventType) :
    OccupancyState × Option OccupancyState :=
  match event with
  | .motion_detected => transitionTo current .occupied
  | .any_door_open => transitionTo current .door_open
  | _ => (current, none)

/-- `handleEventInOccupied` from the controller source
(motion is ignored while already occupied). -/
def handleEventInOccupied (current : OccupancyState) (event : EventType) :
    OccupancyState × Option OccupancyState :=
  match event with
  | .any_door_open => transitionTo current .door_open
  | _ => (current, none)

/-- `handleEventInDoorOpen` from the controller source. -/
def handleEventInDoorOpen (current : OccupancyState) (event : EventType) :
    OccupancyState × Option OccupancyState :=
  match event with
  | .all_doors_closed => transitionTo current .checking
  | _ => (current, none)

/-- `handleEventInChecking` from the controller source
(`motion_timeout` is deliberately ignored here; only the orchestrator's
`timeout` resolves checking to empty). -/
def handleEventInChecking (current : OccupancyState) (event : EventType) :
    OccupancyState × Option OccupancyState :=
  match event with
  | .motion_detected => transitionTo current .occupied
  | .any_door_open => transitionTo current .door_open
  | .timeout => transitionTo current .empty
  | _ => (current, none)

/-- `VirtualOccupancySensorController.registerEvent`: dispatch on the current
state to the per-state handler. -/
def registerEvent (current : OccupancyState) (event : EventType) :
    OccupancyState × Option OccupancyState :=
  match current with
  | .empty => handleEventInEmpty current event
  | .occupied => handleEventInOccupied current event
  | .door_open => handleEventInDoorOpen current event
  | .checking => handleEventInChecking current event

/-- The transition table of spec section 4.4, written from the spec's words
(the refinement companion that `registerEvent` is compared against):
omitted combinations are `none`. -/
def specTransitionTable (s : OccupancyState) (e : EventType) :
    Option OccupancyState :=
  match s, e with
  | .empty, .any_door_open => some .door_open
  | .empty, .motion_detected => some .occupied
  | .occupied, .any_door_open => some .door_open
  | .door_open, .all_doors_closed => some .checking
  | .checking, .any_door_open => some .door_open
  | .checking, .motion_detected => some .occupied
  | .checking, .timeout => some .empty
  | _, _ => none

/-! ## JavaScript `Map` embedding (association lists, `Map.set` semantics) -/

/-- Lookup in a JavaScript `Map` embedded as an association list
(`Map.get`: the value at the first — and, with unique keys, only — matching
entry, or absent). -/
def mapGet {α : Type} : List (String × α) → String → Option α
  | [], _ => none
  | p :: ps, id => if p.1 = id then some p.2 else mapGet ps id

/-- `Map.set`: replace the value at an existing key in place, otherwise
append a new entry (JavaScript `Map`s preserve insertion order). -/
def mapSet {α : Type} : List (String × α) → String → α → List (String × α)
  | [], id, v => [(id, v)]
  | p :: ps, id, v => if p.1 = id then (id, v) :: ps else p :: mapSet ps id v

/-- `Map.delete`: drop the entry with the given key, if present. -/
def mapDelete {α : Type} (m : List (String × α)) (id : String) :
    List (String × α) :=
  m.filter (fun p => p.1 ≠ id)

/-- The keys of an embedded `Map`, in insertion order. -/
def mapKeys {α : Type} (m : List (String × α)) : List String :=
  m.map (fun p => p.1)

/-! ## `BooleanSensorRegistry`: the cached-value map and its predicates -/

/-- The cached last-known value per device of a boolean sensor registry
(`SensorRegistry.capabilityState` at capability type boolean). -/
abbrev SensorCache := List (String × Bool)

/-- `SensorRegistry.getCapabilityStates`: `Array.from(capabilityState.values())`. -/
def getCapabilityStates (cache : SensorCache) : List Bool :=
  cache.map (fun p => p.2)

/-- `BooleanSensorRegistry.isAnyStateTrue`. -/
def isAnyStateTrue (cache : SensorCache) : Bool :=
  (getCapabilityStates cache).any (fun v => v = true)

/-- `BooleanSensorRegistry.isAllStateTrue`. -/
def isAllStateTrue (cache : SensorCache) : Bool :=
  (getCapabilityStates cache).all (fun v => v = true)

/-- `BooleanSensorRegistry.isAnyStateFalse`. -/
def isAnyStateFalse (cache : SensorCache) : Bool :=
  (getCapabilityStates cache).any (fun v => v = false)

/-- `BooleanSensorRegistry.isAllStateFalse`. -/
def isAllStateFalse (cache : SensorCache) : Bool :=
  (getCapabilityStates cache).all (fun v => v = false)

/-- The device ids whose cached value is `true` (proof vocabulary for
reasoning about the cached-value map). -/
def trueKeys : SensorCache → List String
  | [] => []
  | p :: ps => if p.2 then p.1 :: trueKeys ps else trueKeys ps

/-! ## `MotionSensorRegistry`: the per-sensor timeout learner -/

/-- Per-device learning record (`TimeoutLearningData` in
`motion-sensor-registry.ts`): the pending `true` timestamp and the learned
minimum blind-time, both nullable. -/
structure TimeoutLearningData where
  lastTrueTimestamp : Option Int
  learnedTimeoutMs : Option Int
deriving DecidableEq, Repr

/-- The learner's `timeoutLearning` map. -/
abbrev LearnMap := List (String × TimeoutLearningData)

/-- The clamp floor for learned durations (`MIN_LEARNED_TIMEOUT_MS = 1000`). -/
def MIN_LEARNED_TIMEOUT_MS : Int := 1000

/-- `MotionSensorRegistry.trackTimeoutLearning`, with `Date.now()` passed in
explicitly.  Returns the updated map together with whether the adoption
branch ran (which is exactly when `timeoutStore.save` is kicked off). -/
def trackTimeoutLearning (m : LearnMap) (deviceId : String) (value : Bool)
    (now : Int) : LearnMap × Bool :=
  let data := (mapGet m deviceId).getD ⟨none, none⟩
  if value then
    (mapSet m deviceId { data with lastTrueTimestamp := some now }, false)
  else
    match data.lastTrueTimestamp with
    | some t =>
        let durationMs := now - t
        let clampedDurationMs := max durationMs MIN_LEARNED_TIMEOUT_MS
        match data.learnedTimeoutMs with
        | none => (mapSet m deviceId ⟨none, some clampedDurationMs⟩, true)
        | some l =>
            if clampedDurationMs < l then
              (mapSet m deviceId ⟨none, some clampedDurationMs⟩, true)
            else
              (mapSet m deviceId ⟨none, some l⟩, false)
    | none => (mapSet m deviceId data, false)

/-- `MotionSensorRegistry.getLearnedTimeout` (`null` if never learned). -/
def getLearnedTimeout (m : LearnMap) (deviceId : String) : Option Int :=
  (mapGet m deviceId).bind (fun d => d.learnedTimeoutMs)

/-- `MotionSensorRegistry.getAllLearnedTimeouts`. -/
def getAllLearnedTimeouts (m : LearnMap) : List (String × Option Int) :=
  m.map (fun p => (p.1, p.2.learnedTimeoutMs))

/-- `MotionSensorRegistry.getMinLearnedTimeout`: start from `defaultMs` and
lower it whenever a non-null learned timeout is strictly smaller. -/
def getMinLearnedTimeout (m : LearnMap) (defaultMs : Int) : Int :=
  m.foldl
    (fun acc p =>
      match p.2.learnedTimeoutMs with
      | some l => if l < acc then l else acc
      | none => acc)
    defaultMs

/-- `DeviceConfig` of `checking-sensor-registry.ts`. -/
structure DeviceConfig where
  id : String
  timeoutMs : Int
deriving DecidableEq, Repr

/-- `MotionSensorRegistry.getDeviceConfigs`: one entry per configured device
id, substituting the default timeout where unlearned. -/
def getDeviceConfigs (deviceIds : List String) (defaultMotionTimeoutMs : Int)
    (m : LearnMap) : List DeviceConfig :=
  deviceIds.map (fun id =>
    { id := id
      timeoutMs := (getLearnedTimeout m id).getD defaultMotionTimeoutMs })

/-- The state of a `MotionSensorRegistry` instance: the inherited cached
boolean values, the learning map, the configured ids, the configured
default, the `enableLearning` flag, and a count of persistence saves
triggered so far (the explicit trace of the fire-and-forget
`timeoutStore.save` calls). -/
structure MotionSensorRegistry where
  capabilityState : SensorCache
  timeoutLearning : LearnMap
  deviceIds : List String
  defaultMotionTimeoutMs : Int
  enableLearning : Bool
  saves : Nat
deriving DecidableEq, Repr

/-- The `MotionSensorRegistry` constructor: stores the flags and restores the
learning map from `timeoutStore.load()` (kept only when non-empty, exactly as
the `data.size > 0` guard does). -/
def mkMotionSensorRegistry (loaded : LearnMap) (deviceIds : List String)
    (defaultMotionTimeoutMs : Int) (enableLearning : Bool) :
    MotionSensorRegistry :=
  { capabilityState := []
    timeoutLearning := if loaded.length > 0 then loaded else []
    deviceIds := deviceIds
    defaultMotionTimeoutMs := defaultMotionTimeoutMs
    enableLearning := enableLearning
    saves := 0 }

/-- One boolean motion event through the registry: the base
`SensorRegistry.handleDeviceEvent` caches the value, then the wrapped
handler of the `MotionSensorRegistry` constructor runs
`trackTimeoutLearning` — but only when `enableLearning` is set. -/
def motionHandleDeviceEvent (reg : MotionSensorRegistry) (deviceId : String)
    (value : Bool) (now : Int) : MotionSensorRegistry :=
  let reg := { reg with capabilityState := mapSet reg.capabilityState deviceId value }
  if reg.enableLearning then
    let tracked := trackTimeoutLearning reg.timeoutLearning deviceId value now
    { reg with
      timeoutLearning := tracked.1
      saves := reg.saves + (if tracked.2 then 1 else 0) }
  else reg

/-- A sequence of motion events `(deviceId, value, now)` through the registry. -/
def runMotionEvents (reg : MotionSensorRegistry)
    (evs : List (String × Bool × Int)) : MotionSensorRegistry :=
  evs.foldl (fun r e => motionHandleDeviceEvent r e.1 e.2.1 e.2.2) reg

/-- A sequence of single-device events `(value, now)` through
`trackTimeoutLearning` alone (the learning map component). -/
def runTrackEvents (m : LearnMap) (deviceId : String)
    (evs : List (Bool × Int)) : LearnMap :=
  evs.foldl (fun acc e => (trackTimeoutLearning acc deviceId e.1 e.2).1) m

/-- The event list of a sequence of complete true→false cycles: cycle
`(t, d)` contributes a `true` event at time `t` and a `false` event at time
`t + d` (duration `d`). -/
def cycleEvents : List (Int × Int) → List (Bool × Int)
  | [] => []
  | c :: cs => (true, c.1) :: (false, c.1 + c.2) :: cycleEvents cs

/-! ## `CheckingSensorRegistry`: the rendezvous/barrier timer

The per-device countdowns (`VirtualCheckingSensor.start`/`stop`: schedule or
cancel one `setTimeout` at the device's `timeoutMs`) are embedded as the
`pending` set of armed device ids; a countdown elapsing is an explicit
`RendezvousEv.fire` event, which can only happen for an armed id and disarms
it (a `setTimeout` is one-shot). -/

/-- The state of a `CheckingSensorRegistry` instance.  `fires` counts the
invocations of the completion callback (`handleDeviceEvent`, the
`onCheckingTimeout` of the orchestrator) so far. -/
structure CheckingSensorRegistry where
  deviceConfigs : List DeviceConfig
  listeners : List String
  pending : List String
  triggeredDevices : List String
  fires : Nat
deriving DecidableEq, Repr

/-- `Map.set` on a key set: append the key when absent (keys only; the
checking registry keys its listener map by device id). -/
def insertKey (l : List String) (id : String) : List String :=
  if id ∈ l then l else l ++ [id]

/-- The `CheckingSensorRegistry` constructor: store the configs and create
one `VirtualCheckingSensor` listener per config (`addListener`). -/
def mkCheckingSensorRegistry (deviceConfigs : List DeviceConfig) :
    CheckingSensorRegistry :=
  { deviceConfigs := deviceConfigs
    listeners := deviceConfigs.foldl (fun acc c => insertKey acc c.id) []
    pending := []
    triggeredDevices := []
    fires := 0 }

/-- `CheckingSensorRegistry.startChecking`: clear the fired set and start
every listener's countdown. -/
def startChecking (r : CheckingSensorRegistry) : CheckingSensorRegistry :=
  { r with triggeredDevices := [], pending := r.listeners }

/-- `CheckingSensorRegistry.stopChecking`: clear the fired set and cancel
every listener's countdown. -/
def stopChecking (r : CheckingSensorRegistry) : CheckingSensorRegistry :=
  { r with triggeredDevices := [], pending := [] }

/-- `CheckingSensorRegistry.removeListener`: stop the instance's countdown
and drop it from the listener map (no-op when absent). -/
def removeListenerCSR (r : CheckingSensorRegistry) (c : DeviceConfig) :
    CheckingSensorRegistry :=
  if c.id ∈ r.listeners then
    { r with
      listeners := r.listeners.erase c.id
      pending := r.pending.erase c.id }
  else r

/-- `CheckingSensorRegistry.handleDeviceEventCallback`: mark the device as
triggered; once the triggered count reaches the listener count, invoke the
completion callback, clear the fired set, and remove every listener (the run
is one-shot). -/
def handleDeviceEventCallback (r : CheckingSensorRegistry)
    (deviceId : String) : CheckingSensorRegistry :=
  let triggered :=
    if deviceId ∈ r.triggeredDevices then r.triggeredDevices
    else r.triggeredDevices ++ [deviceId]
  if r.listeners.length ≤ triggered.length then
    r.deviceConfigs.foldl removeListenerCSR
      { r with triggeredDevices := [], fires := r.fires + 1 }
  else
    { r with triggeredDevices := triggered }

/-- An observable event of a rendezvous run: one device's countdown elapsing,
or the surrounding orchestrator cancelling the run. -/
inductive RendezvousEv : Type
  | fire (deviceId : String)
  | stop
deriving DecidableEq, Repr

/-- One scheduler step: a countdown can elapse only while armed, and firing
disarms it before the registry callback runs; `stop` is `stopChecking`. -/
def rendezvousStep (r : CheckingSensorRegistry) :
    RendezvousEv → CheckingSensorRegistry
  | .fire deviceId =>
      if deviceId ∈ r.pending then
        handleDeviceEventCallback { r with pending := r.pending.erase deviceId } deviceId
      else r
  | .stop => stopChecking r

/-- A whole scheduled event sequence over a rendezvous run. -/
def runRendezvous (r : CheckingSensorRegistry) (evs : List RendezvousEv) :
    CheckingSensorRegistry :=
  evs.foldl rendezvousStep r

/-- Specification predicate for the barrier: some stop-free prefix of the
event sequence contains a countdown-elapsed event for every id in `need`. -/
def CoveredBeforeStop (need : List String) (evs : List RendezvousEv) : Prop :=
  ∃ k, (∀ e ∈ evs.take k, e ≠ RendezvousEv.stop) ∧
    ∀ id ∈ need, RendezvousEv.fire id ∈ evs.take k

/-! ## Orchestration glue in `VirtualOccupancySensorDevice` -/

/-- `VirtualOccupancySensorDevice.handleContactSensorEvent`, reduced to the
event emitted to the state machine.  Note that the base registry has already
cached the new value by the time this handler runs, so `isAllStateFalse` is
evaluated on the post-update cache. -/
def handleContactSensorEvent (doorCache : SensorCache) (value : Bool) :
    Option EventType :=
  if value then some .any_door_open
  else if isAllStateFalse doorCache then some .all_doors_closed
  else none

/-- One door event through the contact registry and the orchestrator:
`SensorRegistry.handleDeviceEvent` caches the value, then
`handleContactSensorEvent` decides what to emit. -/
def contactStep (cache : SensorCache) (deviceId : String) (value : Bool) :
    SensorCache × Option EventType :=
  let cache := mapSet cache deviceId value
  (cache, handleContactSensorEvent cache value)

/-- The emission trace of a sequence of door events (one entry per event:
the state-machine event emitted, or `none` when the event was swallowed). -/
def contactTrace (cache : SensorCache) :
    List (String × Bool) → List (Option EventType)
  | [] => []
  | e :: es => (contactStep cache e.1 e.2).2 :: contactTrace (contactStep cache e.1 e.2).1 es

/-- The door-registry cache after a sequence of door events. -/
def contactRun (cache : SensorCache) : List (String × Bool) → SensorCache
  | [] => cache
  | e :: es => contactRun (contactStep cache e.1 e.2).1 es

/-- Proof vocabulary: the effect of one complete true→false cycle of
duration `d` on a learned value (`none` = never learned): adopt the clamped
duration when unset or strictly smaller, keep the old value otherwise. -/
def learnStep (learned : Option Int) (d : Int) : Option Int :=
  match learned with
  | none => some (max d MIN_LEARNED_TIMEOUT_MS)
  | some l => some (min l (max d MIN_LEARNED_TIMEOUT_MS))

/-- `VirtualOccupancySensorDevice.onCheckingTimeout`: when the rendezvous
completes, re-read `isAnyStateTrue()` on the live motion cache and emit
`motion_detected` or `timeout` accordingly. -/
def onCheckingTimeout (motionCache : SensorCache)
    (current : OccupancyState) : OccupancyState × Option OccupancyState :=
  if isAnyStateTrue motionCache then registerEvent current .motion_detected
  else registerEvent current .timeout

/-- `VirtualOccupancySensorDevice.handleCheckingState`: build the
`DeviceConfig` list from the learner's `getDeviceConfigs()` and construct a
fresh `CheckingSensorRegistry` for it.  Modelled from the spec: the
repository's current `checking-sensor.ts` (the `VirtualCheckingSensor` with
a named export that this registry imports) is not under `src/`, and it is
that file which makes the freshly constructed run's per-device countdowns
start upon entry to `checking`; following spec sections 4.3 and 4.5
("construct a fresh Checking Rendezvous Timer, `start()` it"), entering
`checking` is embedded as construction followed by `startChecking`. -/
def handleCheckingState (reg : MotionSensorRegistry) : CheckingSensorRegistry :=
  startChecking
    (mkCheckingSensorRegistry
      (getDeviceConfigs reg.deviceIds reg.defaultMotionTimeoutMs reg.timeoutLearning))

/-- `VirtualOccupancySensorDevice.onStateChange`, reduced to its effect on
the `checkingSensorRegistry` field: entering any state other than `checking`
first synchronously stops and discards the in-flight run (when present);
entering `checking` installs a fresh started run.  The result is the new
value of the field paired with the discarded run (after any `stopChecking`
applied to it). -/
def onStateChange (state : OccupancyState) (motionReg : MotionSensorRegistry)
    (checkingSensorRegistry : Option CheckingSensorRegistry) :
    Option CheckingSensorRegistry × Option CheckingSensorRegistry :=
  if state ≠ .checking then
    (none, checkingSensorRegistry.map stopChecking)
  else
    (some (handleCheckingState motionReg), checkingSensorRegistry)

/-! ## `SensorRegistry`: listener lifecycle under `updateDeviceIds` -/

/-- The device-platform boundary seen by `SensorRegistry.addListener`:
resolving a device id yields the device's name and the current value of the
capability (`none` overall when the device is unresolvable or lacks the
capability; an inner `none` when the current value is `null`, in which case
the seeding `handleDeviceEvent` returns without caching). -/
def DeviceEnv : Type := String → Option (String × Option Bool)

/-- The registry state of `sensor-registry.ts` (boolean capability):
configured ids, ids holding a live listener instance, the cached-value map,
and the cached device names. -/
structure SensorRegistryState where
  deviceIds : List String
  listeners : List String
  capabilityState : SensorCache
  deviceNames : List (String × String)
deriving DecidableEq, Repr

/-- `SensorRegistry.addListener`: resolve the device; on failure log and
return.  Otherwise cache its name, subscribe, seed the cache with the
current value through `handleDeviceEvent` (skipped when the value is
`null`), and record the listener instance. -/
def addListener (env : DeviceEnv) (r : SensorRegistryState)
    (deviceId : String) : SensorRegistryState :=
  match env deviceId with
  | none => r
  | some (nm, v) =>
      { r with
        deviceNames := mapSet r.deviceNames deviceId nm
        capabilityState :=
          match v with
          | some b => mapSet r.capabilityState deviceId b
          | none => r.capabilityState
        listeners := insertKey r.listeners deviceId }

/-- `SensorRegistry.removeListener`: when a listener instance exists,
destroy it and drop the listener and cached-name entries.  The cached
capability value is left untouched. -/
def removeListener (r : SensorRegistryState) (deviceId : String) :
    SensorRegistryState :=
  if deviceId ∈ r.listeners then
    { r with
      listeners := r.listeners.erase deviceId
      deviceNames := mapDelete r.deviceNames deviceId }
  else r

/-- `SensorRegistry.updateDeviceIds`: diff the configured set, remove
listeners for ids no longer wanted, add listeners for new ids, and store the
new id set. -/
def updateDeviceIds (env : DeviceEnv) (r : SensorRegistryState)
    (newIds : List String) : SensorRegistryState :=
  let removedIds := r.deviceIds.filter (fun id => id ∉ newIds)
  let addedIds := newIds.filter (fun id => id ∉ r.deviceIds)
  let r1 := removedIds.foldl removeListener r
  let r2 := addedIds.foldl (addListener env) r1
  { r2 with deviceIds := newIds }

/-- C1: for every state `S` and event `E`, `registerEvent(E)` issued in `S`
changes the state exactly as the section 4.4 table prescribes and fires the
state-change notification with the new state; for every state/event
combination absent from the table — including `motion_timeout` in every
state — it is a no-op: the state is unchanged and no notification fires. -/
theorem registerEvent_matches_spec_table :
    ∀ (s : OccupancyState) (e : EventType),
      registerEvent s e =
        match specTransitionTable s e with
        | some t => (t, some t)
        | none => (s, none) := by
  decide

/-- C9: requesting a transition to the current state — through the central
`transitionTo`, through the forced `setOccupancyState`, or through any event
whose net effect leaves the state unchanged — never fires the state-change
notification. -/
theorem selfTransition_is_noop :
    (∀ s : OccupancyState, transitionTo s s = (s, none)) ∧
    (∀ s : OccupancyState, setOccupancyState s s = (s, none)) ∧
    (∀ (s : OccupancyState) (e : EventType),
      (registerEvent s e).1 = s → (registerEvent s e).2 = none) := by
  decide

/-- Witness for C9: concrete self-transitions (forced to `occupied` while
`occupied`; `timeout` in `empty`, which leaves the state unchanged) fire no
notification. -/
theorem selfTransition_is_noop_witness :
    setOccupancyState .occupied .occupied = (.occupied, none) ∧
    (registerEvent .empty .timeout).2 = none :=
  ⟨selfTransition_is_noop.2.1 .occupied,
   selfTransition_is_noop.2.2 .empty .timeout (by decide)⟩

/-! ## Association-list map lemmas -/

theorem mapGet_mapSet_self {α : Type} (m : List (String × α)) (id : String)
    (v : α) : mapGet (mapSet m id v) id = some v := by
  induction m with
  | nil => simp [mapGet, mapSet]
  | cons p ps ih =>
      by_cases h : p.1 = id
      · simp [mapGet, mapSet, h]
      · simp [mapGet, mapSet, h, ih]

theorem mapGet_mapSet_other {α : Type} (m : List (String × α))
    (id id' : String) (v : α) (h : id' ≠ id) :
    mapGet (mapSet m id v) id' = mapGet m id' := by
  induction m with
  | nil => simp [mapGet, mapSet, Ne.symm h]
  | cons p ps ih =>
      by_cases hp : p.1 = id
      · subst hp
        simp [mapGet, mapSet, Ne.symm h]
      · simp [mapGet, mapSet, hp, ih]

theorem mapSet_mapSet_self {α : Type} (m : List (String × α)) (id : String)
    (v w : α) : mapSet (mapSet m id v) id w = mapSet m id w := by
  induction m with
  | nil => simp [mapSet]
  | cons p ps ih =>
      by_cases h : p.1 = id
      · simp [mapSet, h]
      · simp [mapSet, h, ih]

/-! ## C2: checking-phase resolution -/

/-- C2: when the checking rendezvous completes while the state machine is in
`checking`, the orchestrator's `onCheckingTimeout` emits `motion_detected`
and the next state is `occupied` exactly if `isAnyStateTrue()` on the live
motion cache holds at completion time, and emits `timeout` with next state
`empty` otherwise; moreover the run installed on entering `checking`
(`handleCheckingState`) does not depend on the cached motion values or the
learning flag at entry — no short-circuit happens there. -/
theorem onCheckingTimeout_resolves_from_live_motion
    (motionCache : SensorCache) (s : OccupancyState) (h : s = .checking) :
    ((isAnyStateTrue motionCache = true →
        onCheckingTimeout motionCache s =
          (.occupied, some OccupancyState.occupied)) ∧
     (isAnyStateTrue motionCache = false →
        onCheckingTimeout motionCache s = (.empty, some OccupancyState.empty))) ∧
    (∀ (learning : LearnMap) (ids : List String) (dflt : Int)
       (flag₁ flag₂ : Bool) (saves₁ saves₂ : Nat)
       (cache₁ cache₂ : SensorCache),
      handleCheckingState ⟨cache₁, learning, ids, dflt, flag₁, saves₁⟩ =
        handleCheckingState ⟨cache₂, learning, ids, dflt, flag₂, saves₂⟩) := by
  subst h
  refine ⟨⟨fun hTrue => ?_, fun hFalse => ?_⟩, fun _ _ _ _ _ _ _ _ _ => rfl⟩
  · simp [onCheckingTimeout, hTrue, registerEvent, handleEventInChecking,
      transitionTo]
  · simp [onCheckingTimeout, hFalse, registerEvent, handleEventInChecking,
      transitionTo]

/-- Witness for C2: a one-sensor cache with live motion resolves to
`occupied`; with quiet motion it resolves to `empty`. -/
theorem onCheckingTimeout_resolves_from_live_motion_witness :
    onCheckingTimeout [("motion-1", true)] .checking =
      (.occupied, some OccupancyState.occupied) ∧
    onCheckingTimeout [("motion-1", false)] .checking =
      (.empty, some OccupancyState.empty) :=
  ⟨(onCheckingTimeout_resolves_from_live_motion [("motion-1", true)]
      .checking rfl).1.1 (by decide),
   (onCheckingTimeout_resolves_from_live_motion [("motion-1", false)]
      .checking rfl).1.2 (by decide)⟩

/-! ## C8: `getMinLearnedTimeout` -/

/-- C8 counterexample: a tracked device has learned timeout 25000 ms — the
minimum learned timeout across all tracked devices is 25000 — yet with
default 20000 the function returns 20000, not the learned minimum, because
the accumulator starts at `defaultMs` and only ever goes down. -/
theorem getMinLearnedTimeout_counterexample :
    getMinLearnedTimeout [("motion-1", ⟨none, some 25000⟩)] 20000 = 20000 ∧
    (20000 : Int) ≠ 25000 := by
  exact ⟨rfl, by decide⟩

/-- C8 (amended): `getMinLearnedTimeout(defaultMs)` returns the minimum of
the supplied default and every learned (non-null) timeout of the tracked
devices — the default is an upper bound on the result, so it is returned
whenever no learned timeout is strictly smaller, and in particular when no
device has a learned timeout at all. -/
theorem getMinLearnedTimeout_eq_min_with_default (m : LearnMap)
    (defaultMs : Int) :
    getMinLearnedTimeout m defaultMs =
      (m.filterMap (fun p => p.2.learnedTimeoutMs)).foldl min defaultMs ∧
    ((∀ p ∈ m, p.2.learnedTimeoutMs = none) →
      getMinLearnedTimeout m defaultMs = defaultMs) := by
  have main : ∀ (m : LearnMap) (d : Int),
      getMinLearnedTimeout m d =
        (m.filterMap (fun p => p.2.learnedTimeoutMs)).foldl min d := by
    intro m
    induction m with
    | nil => intro d; rfl
    | cons p ps ih =>
        intro d
        have h1 : getMinLearnedTimeout (p :: ps) d =
            getMinLearnedTimeout ps
              (match p.2.learnedTimeoutMs with
               | some l => if l < d then l else d
               | none => d) := rfl
        cases hp : p.2.learnedTimeoutMs with
        | none => rw [h1, hp]; simp [List.filterMap_cons, hp, ih]
        | some l =>
            rw [h1, hp]
            simp only [List.filterMap_cons, hp, List.foldl_cons]
            have h2 : (if l < d then l else d) = min d l := by
              rcases le_or_lt d l with hdl | hld
              · simp [min_eq_left hdl, not_lt.mpr hdl]
              · simp [min_eq_right (le_of_lt hld), hld]
            rw [h2, ih]
  refine ⟨main m defaultMs, fun hnone => ?_⟩
  have hnil : m.filterMap (fun p => p.2.learnedTimeoutMs) = [] := by
    simp only [List.filterMap_eq_nil_iff]
    exact hnone
  rw [main m defaultMs, hnil]
  rfl

/-- Witness for C8's amended theorem: with one learned value below the
default, the fold picks the learned value. -/
theorem getMinLearnedTimeout_eq_min_with_default_witness :
    getMinLearnedTimeout
        [("motion-1", ⟨none, some 8000⟩), ("motion-2", ⟨none, none⟩)] 30000 =
      ([some 8000, none].filterMap id).foldl min 30000 ∧
    getMinLearnedTimeout [("motion-1", ⟨none, none⟩)] 30000 = 30000 := by
  refine ⟨?_, (getMinLearnedTimeout_eq_min_with_default
    [("motion-1", ⟨none, none⟩)] 30000).2 (by decide)⟩
  have h := (getMinLearnedTimeout_eq_min_with_default
    [("motion-1", ⟨none, some 8000⟩), ("motion-2", ⟨none, none⟩)] 30000).1
  simpa using h

/-! ## C10: the `enableLearning` gate -/

/-- With learning disabled, a motion event only re-caches the boolean value:
the learning map, the save count, the configured ids and the default are
untouched. -/
theorem runMotionEvents_learning_disabled (evs : List (String × Bool × Int)) :
    ∀ (reg : MotionSensorRegistry), reg.enableLearning = false →
      ∃ c, runMotionEvents reg evs = { reg with capabilityState := c } := by
  induction evs with
  | nil => intro reg _; exact ⟨reg.capabilityState, rfl⟩
  | cons e es ih =>
      intro reg h
      have hstep : motionHandleDeviceEvent reg e.1 e.2.1 e.2.2 =
          { reg with capabilityState := mapSet reg.capabilityState e.1 e.2.1 } := by
        simp [motionHandleDeviceEvent, h]
      have hrun : runMotionEvents reg (e :: es) =
          runMotionEvents (motionHandleDeviceEvent reg e.1 e.2.1 e.2.2) es := rfl
      rw [hrun, hstep]
      exact ih { reg with capabilityState := mapSet reg.capabilityState e.1 e.2.1 } h

/-- C10: timeout learning is gated by the `enableLearning` constructor flag:
when it is false, no motion event sequence (any devices, values, times)
creates or modifies timeout-learning data or triggers a persistence save,
and `getLearnedTimeout`, `getAllLearnedTimeouts`, `getMinLearnedTimeout` and
`getDeviceConfigs` afterwards return exactly what they returned right after
construction — which is computed solely from the map restored from the
persisted store. -/
theorem learning_disabled_is_frame (loaded : LearnMap) (deviceIds : List String)
    (defaultMotionTimeoutMs : Int) (evs : List (String × Bool × Int)) (d : Int) :
    (runMotionEvents (mkMotionSensorRegistry loaded deviceIds
        defaultMotionTimeoutMs false) evs).timeoutLearning =
      (mkMotionSensorRegistry loaded deviceIds defaultMotionTimeoutMs
        false).timeoutLearning ∧
    (runMotionEvents (mkMotionSensorRegistry loaded deviceIds
        defaultMotionTimeoutMs false) evs).saves = 0 ∧
    (mkMotionSensorRegistry loaded deviceIds defaultMotionTimeoutMs
        false).timeoutLearning = loaded ∧
    (∀ id,
      getLearnedTimeout (runMotionEvents (mkMotionSensorRegistry loaded
        deviceIds defaultMotionTimeoutMs false) evs).timeoutLearning id =
      getLearnedTimeout loaded id) ∧
    getAllLearnedTimeouts (runMotionEvents (mkMotionSensorRegistry loaded
        deviceIds defaultMotionTimeoutMs false) evs).timeoutLearning =
      getAllLearnedTimeouts loaded ∧
    getMinLearnedTimeout (runMotionEvents (mkMotionSensorRegistry loaded
        deviceIds defaultMotionTimeoutMs false) evs).timeoutLearning d =
      getMinLearnedTimeout loaded d ∧
    getDeviceConfigs
        (runMotionEvents (mkMotionSensorRegistry loaded deviceIds
          defaultMotionTimeoutMs false) evs).deviceIds
        (runMotionEvents (mkMotionSensorRegistry loaded deviceIds
          defaultMotionTimeoutMs false) evs).defaultMotionTimeoutMs
        (runMotionEvents (mkMotionSensorRegistry loaded deviceIds
          defaultMotionTimeoutMs false) evs).timeoutLearning =
      getDeviceConfigs deviceIds defaultMotionTimeoutMs loaded := by
  have hload : (mkMotionSensorRegistry loaded deviceIds defaultMotionTimeoutMs
      false).timeoutLearning = loaded := by
    cases loaded with
    | nil => rfl
    | cons p ps => simp [mkMotionSensorRegistry]
  obtain ⟨c, hc⟩ := runMotionEvents_learning_disabled evs
    (mkMotionSensorRegistry loaded deviceIds defaultMotionTimeoutMs false) rfl
  rw [hc]
  refine ⟨by simp, rfl, hload, fun id => by simp [hload],
    by simp [hload], by simp [hload], ?_⟩
  simp only [hload]
  simp [mkMotionSensorRegistry]

/-! ## C4: learner minimum-wins -/

/-- One complete true→false cycle of duration `d` turns a clean entry
(`lastTrueTimestamp = none`, learned value `L`) into a clean entry with
learned value `learnStep L d`. -/
theorem trackTimeoutLearning_cycle (m : LearnMap) (deviceId : String)
    (t d : Int) (L : Option Int)
    (h : (mapGet m deviceId).getD ⟨none, none⟩ = ⟨none, L⟩) :
    (trackTimeoutLearning
        (trackTimeoutLearning m deviceId true t).1 deviceId false (t + d)).1 =
      mapSet m deviceId ⟨none, learnStep L d⟩ := by
  have h1 : (trackTimeoutLearning m deviceId true t).1 =
      mapSet m deviceId ⟨some t, L⟩ := by
    simp [trackTimeoutLearning, h]
  rw [h1]
  have h2 : mapGet (mapSet m deviceId ⟨some t, L⟩) deviceId =
      some ⟨some t, L⟩ := mapGet_mapSet_self m deviceId ⟨some t, L⟩
  have hdur : t + d - t = d := by ring
  cases L with
  | none =>
      simp [trackTimeoutLearning, h2, hdur, learnStep, mapSet_mapSet_self]
  | some l =>
      by_cases hlt : max d MIN_LEARNED_TIMEOUT_MS < l
      · simp [trackTimeoutLearning, h2, hdur, learnStep, mapSet_mapSet_self,
          hlt, min_eq_right (le_of_lt hlt)]
      · simp [trackTimeoutLearning, h2, hdur, learnStep, mapSet_mapSet_self,
          hlt, min_eq_left (not_lt.mp hlt)]

/-- Folding a sequence of complete cycles over a clean entry yields a clean
entry with the `learnStep`-fold of the durations. -/
theorem runTrackEvents_cycles (deviceId : String) :
    ∀ (cycles : List (Int × Int)) (m : LearnMap) (L : Option Int),
      (mapGet m deviceId).getD ⟨none, none⟩ = ⟨none, L⟩ →
      (mapGet (runTrackEvents m deviceId (cycleEvents cycles))
          deviceId).getD ⟨none, none⟩ =
        ⟨none, cycles.foldl (fun acc c => learnStep acc c.2) L⟩ := by
  intro cycles
  induction cycles with
  | nil => intro m L h; simpa [runTrackEvents, cycleEvents] using h
  | cons c cs ih =>
      intro m L h
      have hstep := trackTimeoutLearning_cycle m deviceId c.1 c.2 L h
      have hrun : runTrackEvents m deviceId (cycleEvents (c :: cs)) =
          runTrackEvents
            ((trackTimeoutLearning
              (trackTimeoutLearning m deviceId true c.1).1 deviceId false
              (c.1 + c.2)).1) deviceId (cycleEvents cs) := rfl
      rw [hrun, hstep]
      have hget : (mapGet (mapSet m deviceId ⟨none, learnStep L c.2⟩)
          deviceId).getD ⟨none, none⟩ = ⟨none, learnStep L c.2⟩ := by
        rw [mapGet_mapSet_self]
        rfl
      simpa [List.foldl_cons] using
        ih (mapSet m deviceId ⟨none, learnStep L c.2⟩) (learnStep L c.2) hget

/-- The `learnStep`-fold from an already-learned value stays `some` and
computes a fold of clamped minima. -/
theorem foldl_learnStep_some (cs : List (Int × Int)) :
    ∀ a : Int,
      cs.foldl (fun acc c => learnStep acc c.2) (some a) =
        some (cs.foldl
          (fun acc c => min acc (max c.2 MIN_LEARNED_TIMEOUT_MS)) a) := by
  induction cs with
  | nil => intro a; rfl
  | cons c cs ih =>
      intro a
      simpa [learnStep] using ih (min a (max c.2 MIN_LEARNED_TIMEOUT_MS))

/-- A fold of minima of clamped durations equals the clamp of the fold of
raw minima (distributivity of `max _ floor` over `min`). -/
theorem foldl_min_max_floor (cs : List (Int × Int)) :
    ∀ d : Int,
      cs.foldl (fun acc c => min acc (max c.2 MIN_LEARNED_TIMEOUT_MS))
          (max d MIN_LEARNED_TIMEOUT_MS) =
        max MIN_LEARNED_TIMEOUT_MS (cs.foldl (fun acc c => min acc c.2) d) := by
  induction cs with
  | nil => intro d; exact max_comm d MIN_LEARNED_TIMEOUT_MS
  | cons c cs ih =>
      intro d
      have h : min (max d MIN_LEARNED_TIMEOUT_MS)
          (max c.2 MIN_LEARNED_TIMEOUT_MS) =
            max (min d c.2) MIN_LEARNED_TIMEOUT_MS :=
        (max_min_distrib_right d c.2 MIN_LEARNED_TIMEOUT_MS).symm
      simp only [List.foldl_cons]
      rw [h]
      exact ih (min d c.2)

/-- C4: for one motion sensor, after any nonempty sequence of complete
true→false cycles with durations `d₁ … dₙ` (cycle `(t, d)` = `true` at `t`,
`false` at `t + d`), `getLearnedTimeout` equals
`max(1000, min(d₁ … dₙ))`; moreover a repeated `true` event merely restarts
the measurement window (it overwrites `lastTrueTimestamp` and keeps the
learned value, with no save), and a `false` event with no pending `true`
changes no learned observation and triggers no save. -/
theorem learner_minimum_wins (deviceId : String) (c : Int × Int)
    (cs : List (Int × Int)) :
    (getLearnedTimeout (runTrackEvents [] deviceId (cycleEvents (c :: cs)))
        deviceId =
      some (max MIN_LEARNED_TIMEOUT_MS
        (cs.foldl (fun acc x => min acc x.2) c.2))) ∧
    (∀ (m : LearnMap) (id : String) (now : Int),
      mapGet (trackTimeoutLearning m id true now).1 id =
        some ⟨some now, ((mapGet m id).getD ⟨none, none⟩).learnedTimeoutMs⟩ ∧
      (trackTimeoutLearning m id true now).2 = false) ∧
    (∀ (m : LearnMap) (id : String) (now : Int),
      ((mapGet m id).getD ⟨none, none⟩).lastTrueTimestamp = none →
        (trackTimeoutLearning m id false now).2 = false ∧
        ∀ id', getLearnedTimeout (trackTimeoutLearning m id false now).1 id' =
          getLearnedTimeout m id') := by
  refine ⟨?_, ?_, ?_⟩
  · have hrun := runTrackEvents_cycles deviceId (c :: cs) [] none rfl
    have hfold : (c :: cs).foldl (fun acc x => learnStep acc x.2) none =
        some (max MIN_LEARNED_TIMEOUT_MS
          (cs.foldl (fun acc x => min acc x.2) c.2)) := by
      rw [List.foldl_cons]
      have h0 : learnStep none c.2 = some (max c.2 MIN_LEARNED_TIMEOUT_MS) := rfl
      rw [h0, foldl_learnStep_some, foldl_min_max_floor]
    rw [hfold] at hrun
    cases hm : mapGet (runTrackEvents [] deviceId (cycleEvents (c :: cs)))
        deviceId with
    | none => rw [hm] at hrun; simp at hrun
    | some v =>
        rw [hm] at hrun
        simp only [Option.getD_some] at hrun
        simp [getLearnedTimeout, hm, hrun]
  · intro m id now
    constructor
    · have h1 : (trackTimeoutLearning m id true now).1 =
          mapSet m id ⟨some now,
            ((mapGet m id).getD ⟨none, none⟩).learnedTimeoutMs⟩ := by
        simp [trackTimeoutLearning]
      rw [h1, mapGet_mapSet_self]
    · simp [trackTimeoutLearning]
  · intro m id now h
    have h1 : trackTimeoutLearning m id false now =
        (mapSet m id ((mapGet m id).getD ⟨none, none⟩), false) := by
      simp [trackTimeoutLearning, h]
    refine ⟨by rw [h1], fun id' => ?_⟩
    rw [h1]
    by_cases hid : id' = id
    · subst hid
      rw [getLearnedTimeout, mapGet_mapSet_self]
      cases hm : mapGet m id' with
      | none => simp [getLearnedTimeout, hm]
      | some v => simp [getLearnedTimeout, hm]
    · rw [getLearnedTimeout, mapGet_mapSet_other m id id' _ hid, getLearnedTimeout]

/-- Witness for C4: two cycles of 15 s and 8 s learn
`max 1000 (min 15000 8000) = 8000` ms, and a `false` event on a fresh map is
an observational no-op. -/
theorem learner_minimum_wins_witness :
    getLearnedTimeout
        (runTrackEvents [] "motion-1" (cycleEvents [(0, 15000), (100000, 8000)]))
        "motion-1" =
      some (max MIN_LEARNED_TIMEOUT_MS (min 15000 8000)) ∧
    (trackTimeoutLearning [] "motion-1" false 7).2 = false :=
  ⟨by
    have h := (learner_minimum_wins "motion-1" (0, 15000) [(100000, 8000)]).1
    simpa using h,
   ((learner_minimum_wins "motion-1" (0, 15000) []).2.2 [] "motion-1" 7
     rfl).1⟩

/-! ## C3: the rendezvous barrier -/

/-- With no armed countdown, no event can ever invoke the completion
callback: the fire count is stable. -/
theorem runRendezvous_pending_nil (evs : List RendezvousEv) :
    ∀ r : CheckingSensorRegistry, r.pending = [] →
      (runRendezvous r evs).fires = r.fires := by
  induction evs with
  | nil => intro r _; rfl
  | cons e es ih =>
      intro r h
      cases e with
      | fire id =>
          have hstep : rendezvousStep r (.fire id) = r := by
            simp [rendezvousStep, h]
          have hrun : runRendezvous r (.fire id :: es) = runRendezvous r es := by
            show runRendezvous (rendezvousStep r (.fire id)) es = _
            rw [hstep]
          rw [hrun]
          exact ih r h
      | stop =>
          have hrun : runRendezvous r (.stop :: es) =
              runRendezvous (stopChecking r) es := rfl
          rw [hrun, ih (stopChecking r) rfl]
          rfl

/-- The listener-removal loop run on completion keeps the fire count and
preserves an empty pending set. -/
theorem foldl_removeListenerCSR (cfgs : List DeviceConfig) :
    ∀ r : CheckingSensorRegistry,
      (cfgs.foldl removeListenerCSR r).fires = r.fires ∧
      (r.pending = [] → (cfgs.foldl removeListenerCSR r).pending = []) := by
  induction cfgs with
  | nil => intro r; exact ⟨rfl, fun h => h⟩
  | cons c cs ih =>
      intro r
      have h1 : (removeListenerCSR r c).fires = r.fires ∧
          (r.pending = [] → (removeListenerCSR r c).pending = []) := by
        unfold removeListenerCSR
        split
        · exact ⟨rfl, fun h => by simp [h]⟩
        · exact ⟨rfl, fun h => h⟩
      have h2 := ih (removeListenerCSR r c)
      refine ⟨?_, fun h => ?_⟩
      · rw [List.foldl_cons, h2.1, h1.1]
      · rw [List.foldl_cons]
        exact h2.2 (h1.2 h)

/-- No coverage is possible with an empty event sequence and a nonempty
pending set. -/
theorem coveredBeforeStop_nil (P : List String) (hne : P ≠ []) :
    ¬ CoveredBeforeStop P [] := by
  rintro ⟨k, _, hcov⟩
  obtain ⟨x, hx⟩ := List.exists_mem_of_ne_nil P hne
  have := hcov x hx
  simp at this

/-- No coverage is possible when the sequence starts with a cancellation. -/
theorem coveredBeforeStop_stop (P : List String) (evs : List RendezvousEv)
    (hne : P ≠ []) : ¬ CoveredBeforeStop P (.stop :: evs) := by
  rintro ⟨k, hsf, hcov⟩
  cases k with
  | zero =>
      obtain ⟨x, hx⟩ := List.exists_mem_of_ne_nil P hne
      have := hcov x hx
      simp at this
  | succ j =>
      have hmem : RendezvousEv.stop ∈ (RendezvousEv.stop :: evs).take (j + 1) := by
        rw [List.take_succ_cons]
        exact List.mem_cons_self _ _
      exact (hsf _ hmem) rfl

/-- A fire event for a non-pending id neither helps nor hurts coverage. -/
theorem coveredBeforeStop_fire_not_mem (P : List String) (id : String)
    (evs : List RendezvousEv) (hid : id ∉ P) (hne : P ≠ []) :
    CoveredBeforeStop P (.fire id :: evs) ↔ CoveredBeforeStop P evs := by
  constructor
  · rintro ⟨k, hsf, hcov⟩
    cases k with
    | zero =>
        obtain ⟨x, hx⟩ := List.exists_mem_of_ne_nil P hne
        have := hcov x hx
        simp at this
    | succ j =>
        refine ⟨j, fun e he => hsf e ?_, fun x hx => ?_⟩
        · rw [List.take_succ_cons]
          exact List.mem_cons_of_mem _ he
        · have hm := hcov x hx
          rw [List.take_succ_cons] at hm
          rcases List.mem_cons.mp hm with h | h
          · injection h with h2
            subst h2
            exact absurd hx hid
          · exact h
  · rintro ⟨k, hsf, hcov⟩
    refine ⟨k + 1, fun e he => ?_, fun x hx => ?_⟩
    · rw [List.take_succ_cons] at he
      rcases List.mem_cons.mp he with h | h
      · subst h; simp
      · exact hsf e h
    · rw [List.take_succ_cons]
      exact List.mem_cons_of_mem _ (hcov x hx)

/-- A fire event for a pending id reduces coverage of `P` to coverage of
`P.erase id` (or completes it when `id` was the last pending device). -/
theorem coveredBeforeStop_fire_mem (P : List String) (id : String)
    (evs : List RendezvousEv) (hnd : P.Nodup) (hid : id ∈ P) :
    CoveredBeforeStop P (.fire id :: evs) ↔
      (P.erase id = [] ∨ CoveredBeforeStop (P.erase id) evs) := by
  have hne : P ≠ [] := List.ne_nil_of_mem hid
  constructor
  · rintro ⟨k, hsf, hcov⟩
    by_cases he : P.erase id = []
    · exact Or.inl he
    · right
      cases k with
      | zero =>
          obtain ⟨x, hx⟩ := List.exists_mem_of_ne_nil P hne
          have := hcov x hx
          simp at this
      | succ j =>
          refine ⟨j, fun e hemem => hsf e ?_, fun x hx => ?_⟩
          · rw [List.take_succ_cons]
            exact List.mem_cons_of_mem _ hemem
          · have hxP : x ∈ P := List.mem_of_mem_erase hx
            have hxne : x ≠ id := ((List.Nodup.mem_erase_iff hnd).mp hx).1
            have hm := hcov x hxP
            rw [List.take_succ_cons] at hm
            rcases List.mem_cons.mp hm with h | h
            · injection h with h2
              exact absurd h2 hxne
            · exact h
  · rintro (he | ⟨k, hsf, hcov⟩)
    · have hlen : P.length = 1 := by
        have h1 := List.length_erase_of_mem hid
        rw [he] at h1
        have h2 : 0 < P.length := List.length_pos_of_mem hid
        simp at h1
        omega
      obtain ⟨a, ha⟩ := List.length_eq_one.mp hlen
      subst ha
      have hia : id = a := List.mem_singleton.mp hid
      subst hia
      refine ⟨1, fun e hemem => ?_, fun x hx => ?_⟩
      · rw [List.take_succ_cons] at hemem
        rcases List.mem_cons.mp hemem with h | h
        · subst h; simp
        · simp at h
      · have hxi : x = id := List.mem_singleton.mp hx
        subst hxi
        rw [List.take_succ_cons]
        exact List.mem_cons_self _ _
    · refine ⟨k + 1, fun e hemem => ?_, fun x hx => ?_⟩
      · rw [List.take_succ_cons] at hemem
        rcases List.mem_cons.mp hemem with h | h
        · subst h; simp
        · exact hsf e h
      · rw [List.take_succ_cons]
        by_cases hxi : x = id
        · subst hxi
          exact List.mem_cons_self _ _
        · exact List.mem_cons_of_mem _
            (hcov x ((List.mem_erase_of_ne hxi).mpr hx))

/-- Unfolding one armed-countdown fire through
`handleDeviceEventCallback`. -/
theorem rendezvousStep_fire_pending (r : CheckingSensorRegistry) (id : String)
    (hid : id ∈ r.pending) (hidt : id ∉ r.triggeredDevices) :
    rendezvousStep r (.fire id) =
      if r.listeners.length ≤ r.triggeredDevices.length + 1 then
        r.deviceConfigs.foldl removeListenerCSR
          { r with pending := r.pending.erase id, triggeredDevices := [],
                   fires := r.fires + 1 }
      else
        { r with pending := r.pending.erase id,
                 triggeredDevices := r.triggeredDevices ++ [id] } := by
  simp [rendezvousStep, hid, handleDeviceEventCallback, hidt]

/-- The core barrier invariant: from any mid-run state whose pending set is
nonempty and duplicate-free, disjoint from the fired set, and whose
triggered/pending sizes partition the listener count, the completion
callback runs at most once, and exactly once precisely when some stop-free
prefix of the remaining events covers every pending id. -/
theorem runRendezvous_active (l : List String) (evs : List RendezvousEv) :
    ∀ r : CheckingSensorRegistry,
      r.listeners = l →
      r.pending.Nodup → r.pending ≠ [] →
      (∀ x ∈ r.triggeredDevices, x ∉ r.pending) →
      r.triggeredDevices.length + r.pending.length = l.length →
      r.fires = 0 →
      (runRendezvous r evs).fires ≤ 1 ∧
      ((runRendezvous r evs).fires = 1 ↔ CoveredBeforeStop r.pending evs) := by
  induction evs with
  | nil =>
      intro r hl hnd hne hdis hlen hfires
      refine ⟨by show r.fires ≤ 1; omega, ?_⟩
      show r.fires = 1 ↔ _
      rw [hfires]
      exact iff_of_false (by omega) (coveredBeforeStop_nil _ hne)
  | cons e es ih =>
      intro r hl hnd hne hdis hlen hfires
      cases e with
      | stop =>
          have hrun : runRendezvous r (.stop :: es) =
              runRendezvous (stopChecking r) es := rfl
          have hz : (runRendezvous (stopChecking r) es).fires =
              (stopChecking r).fires := runRendezvous_pending_nil es _ rfl
          have hsf : (stopChecking r).fires = 0 := hfires
          rw [hrun, hz, hsf]
          exact ⟨by omega, iff_of_false (by omega)
            (coveredBeforeStop_stop _ _ hne)⟩
      | fire id =>
          by_cases hidp : id ∈ r.pending
          · have hidt : id ∉ r.triggeredDevices := fun h => hdis id h hidp
            have hstep := rendezvousStep_fire_pending r id hidp hidt
            have hrun : runRendezvous r (.fire id :: es) =
                runRendezvous (rendezvousStep r (.fire id)) es := rfl
            by_cases hcomp : r.listeners.length ≤ r.triggeredDevices.length + 1
            · -- completion: id was the last pending device
              have hpos : 0 < r.pending.length := List.length_pos_of_mem hidp
              have hcomp2 : l.length ≤ r.triggeredDevices.length + 1 := by
                rw [← hl]; exact hcomp
              have hplen : r.pending.length = 1 := by omega
              have herase : r.pending.erase id = [] := by
                have h1 : (r.pending.erase id).length = r.pending.length - 1 :=
                  List.length_erase_of_mem hidp
                rw [hplen] at h1
                exact List.length_eq_zero.mp (by omega)
              have hdone : rendezvousStep r (.fire id) =
                  r.deviceConfigs.foldl removeListenerCSR
                    { r with pending := r.pending.erase id,
                             triggeredDevices := [], fires := r.fires + 1 } := by
                rw [hstep, if_pos hcomp]
              have hfld := foldl_removeListenerCSR r.deviceConfigs
                { r with pending := r.pending.erase id,
                         triggeredDevices := [], fires := r.fires + 1 }
              have hfires1 : (rendezvousStep r (.fire id)).fires = 1 := by
                rw [hdone, hfld.1, hfires]
              have hpend1 : (rendezvousStep r (.fire id)).pending = [] := by
                rw [hdone]
                exact hfld.2 herase
              have hfinal : (runRendezvous r (.fire id :: es)).fires = 1 := by
                rw [hrun, runRendezvous_pending_nil es _ hpend1, hfires1]
              rw [hfinal]
              refine ⟨le_refl 1, iff_of_true rfl ?_⟩
              exact (coveredBeforeStop_fire_mem r.pending id es hnd hidp).mpr
                (Or.inl herase)
            · -- not yet complete: continue with the reduced pending set
              have hdone : rendezvousStep r (.fire id) =
                  { r with pending := r.pending.erase id,
                           triggeredDevices := r.triggeredDevices ++ [id] } := by
                rw [hstep, if_neg hcomp]
              have hcomp2 : ¬ l.length ≤ r.triggeredDevices.length + 1 := by
                rw [← hl]; exact hcomp
              have hpos : 0 < r.pending.length := List.length_pos_of_mem hidp
              have hplen2 : 2 ≤ r.pending.length := by omega
              have herne : r.pending.erase id ≠ [] := by
                have h1 : (r.pending.erase id).length = r.pending.length - 1 :=
                  List.length_erase_of_mem hidp
                intro hh
                rw [hh] at h1
                simp at h1
                omega
              have hih := ih
                { r with
                  pending := r.pending.erase id
                  triggeredDevices := r.triggeredDevices ++ [id] }
                (by simpa using hl)
                (by simpa using hnd.erase id)
                (by simpa using herne)
                (by
                  intro x hx
                  simp only at hx ⊢
                  rcases List.mem_append.mp hx with h | h
                  · intro hmem
                    exact hdis x h (List.mem_of_mem_erase hmem)
                  · rw [List.mem_singleton.mp h]
                    intro hmem
                    exact ((List.Nodup.mem_erase_iff hnd).mp hmem).1 rfl)
                (by
                  simp only [List.length_append, List.length_singleton]
                  rw [List.length_erase_of_mem hidp]
                  omega)
                (by simpa using hfires)
              rw [hrun, hdone]
              refine ⟨hih.1, hih.2.trans ?_⟩
              have hiff := coveredBeforeStop_fire_mem r.pending id es hnd hidp
              rw [or_iff_right herne] at hiff
              exact hiff.symm
          · have hstep : rendezvousStep r (.fire id) = r := by
              simp [rendezvousStep, hidp]
            have hrun : runRendezvous r (.fire id :: es) = runRendezvous r es := by
              show runRendezvous (rendezvousStep r (.fire id)) es = _
              rw [hstep]
            rw [hrun]
            have hmain := ih r hl hnd hne hdis hlen hfires
            exact ⟨hmain.1, hmain.2.trans
              (coveredBeforeStop_fire_not_mem _ _ _ hidp hne).symm⟩

/-- Building the listener key set from duplicate-free config ids gives
exactly those ids. -/
theorem foldl_insertKey (ids : List String) :
    ∀ acc : List String, (acc ++ ids).Nodup →
      ids.foldl insertKey acc = acc ++ ids := by
  induction ids with
  | nil => intro acc _; simp
  | cons x xs ih =>
      intro acc h
      have hnd := List.nodup_append.mp h
      have hx : x ∉ acc := fun hmem => hnd.2.2 hmem (List.mem_cons_self x xs)
      have h1 : insertKey acc x = acc ++ [x] := by simp [insertKey, hx]
      rw [List.foldl_cons, h1]
      have h2 : (acc ++ [x]) ++ xs = acc ++ x :: xs := by simp
      have h3 := ih (acc ++ [x]) (by rw [h2]; exact h)
      rw [h3, h2]

/-- C3 (amended): over a duplicate-free config list, a started rendezvous
run invokes the completion callback at most once, and exactly once precisely
when some cancellation-free prefix of the scheduled events contains every
device's countdown elapsing — i.e. at the moment the fired count reaches the
configured device count; any earlier `stopChecking` (which cancels every
armed countdown and clears the fired set, keeping the fire count) prevents
it from ever firing.  With zero configured devices the callback never fires
at all: the completion check only runs inside a device countdown's callback,
of which there are none. -/
theorem rendezvous_barrier (configs : List DeviceConfig)
    (hnd : (configs.map DeviceConfig.id).Nodup) (evs : List RendezvousEv) :
    ((configs = [] →
        (runRendezvous (startChecking (mkCheckingSensorRegistry configs))
          evs).fires = 0) ∧
     (configs ≠ [] →
        (runRendezvous (startChecking (mkCheckingSensorRegistry configs))
          evs).fires ≤ 1 ∧
        ((runRendezvous (startChecking (mkCheckingSensorRegistry configs))
            evs).fires = 1 ↔
          CoveredBeforeStop (configs.map DeviceConfig.id) evs))) ∧
    (∀ s : CheckingSensorRegistry,
      (stopChecking s).pending = [] ∧ (stopChecking s).triggeredDevices = [] ∧
      (stopChecking s).fires = s.fires) := by
  have hkeys : (mkCheckingSensorRegistry configs).listeners =
      configs.map DeviceConfig.id := by
    show configs.foldl (fun acc c => insertKey acc c.id) [] = _
    rw [← List.foldl_map]
    have h := foldl_insertKey (configs.map DeviceConfig.id) [] (by simpa using hnd)
    simpa using h
  have hpend : (startChecking (mkCheckingSensorRegistry configs)).pending =
      configs.map DeviceConfig.id := hkeys
  refine ⟨⟨fun hnil => ?_, fun hne => ?_⟩, fun s => ⟨rfl, rfl, rfl⟩⟩
  · have hpnil : (startChecking (mkCheckingSensorRegistry configs)).pending = [] := by
      rw [hpend, hnil]
      rfl
    rw [runRendezvous_pending_nil evs _ hpnil]
    rfl
  · have hidsne : configs.map DeviceConfig.id ≠ [] := by
      simpa [List.map_eq_nil_iff] using hne
    have h := runRendezvous_active (configs.map DeviceConfig.id) evs
      (startChecking (mkCheckingSensorRegistry configs))
      (by show (mkCheckingSensorRegistry configs).listeners = _; exact hkeys)
      (by rw [hpend]; exact hnd)
      (by rw [hpend]; exact hidsne)
      (by intro x hx; cases hx)
      (by rw [hpend]; simp [startChecking])
      rfl
    rw [hpend] at h
    exact h

/-- C3 counterexample: with zero configured devices the completion callback
does not fire when `startChecking()` runs — neither immediately nor after
any further scheduler activity — contradicting the claim that it fires
immediately in that case. -/
theorem rendezvous_zero_devices_counterexample :
    (startChecking (mkCheckingSensorRegistry [])).fires = 0 ∧
    (runRendezvous (startChecking (mkCheckingSensorRegistry []))
      [RendezvousEv.fire "motion-1", RendezvousEv.stop]).fires = 0 := by
  exact ⟨rfl, rfl⟩

/-- Witness for C3's amended theorem: a two-device run fires exactly once
when both countdowns elapse, and a run stopped after one countdown never
fires. -/
theorem rendezvous_barrier_witness :
    ((runRendezvous
        (startChecking (mkCheckingSensorRegistry
          [⟨"motion-1", 10000⟩, ⟨"motion-2", 20000⟩]))
        [RendezvousEv.fire "motion-1", RendezvousEv.fire "motion-2"]).fires
      ≤ 1) ∧
    (runRendezvous
        (startChecking (mkCheckingSensorRegistry
          [⟨"motion-1", 10000⟩, ⟨"motion-2", 20000⟩]))
        [RendezvousEv.fire "motion-1", RendezvousEv.fire "motion-2"]).fires = 1 :=
  ⟨((rendezvous_barrier [⟨"motion-1", 10000⟩, ⟨"motion-2", 20000⟩]
      (by decide) [RendezvousEv.fire "motion-1", RendezvousEv.fire "motion-2"]).1.2
      (by decide)).1,
   ((rendezvous_barrier [⟨"motion-1", 10000⟩, ⟨"motion-2", 20000⟩]
      (by decide) [RendezvousEv.fire "motion-1", RendezvousEv.fire "motion-2"]).1.2
      (by decide)).2.mpr
     ⟨2, by decide, by decide⟩⟩

/-! ## C6: rendezvous lifecycle under state changes -/

/-- C6: every transition into `checking` installs a fresh rendezvous run
built from the learner's `getDeviceConfigs()` and started; every transition
into any other state synchronously clears the `checkingSensorRegistry` field
and stops the in-flight run (pending countdowns cancelled, fired set
cleared) before the rest of the notification, and a stopped run can never
invoke the completion callback afterwards, whatever the scheduler still
delivers. -/
theorem onStateChange_checking_lifecycle (state : OccupancyState)
    (motionReg : MotionSensorRegistry) (csr : Option CheckingSensorRegistry) :
    (state = .checking →
      onStateChange state motionReg csr =
        (some (startChecking (mkCheckingSensorRegistry
          (getDeviceConfigs motionReg.deviceIds motionReg.defaultMotionTimeoutMs
            motionReg.timeoutLearning))), csr)) ∧
    (state ≠ .checking →
      (onStateChange state motionReg csr).1 = none ∧
      ∀ r : CheckingSensorRegistry, csr = some r →
        (onStateChange state motionReg csr).2 = some (stopChecking r) ∧
        (stopChecking r).pending = [] ∧
        (stopChecking r).triggeredDevices = [] ∧
        (∀ evs : List RendezvousEv,
          (runRendezvous (stopChecking r) evs).fires = r.fires)) := by
  constructor
  · intro h
    subst h
    simp [onStateChange, handleCheckingState]
  · intro h
    refine ⟨by simp [onStateChange, h], fun r hr => ?_⟩
    subst hr
    exact ⟨by simp [onStateChange, h], rfl, rfl,
      fun evs => runRendezvous_pending_nil evs (stopChecking r) rfl⟩

/-- Witness for C6: entering `empty` with an in-flight run clears the field,
stops the run, and no later countdown can fire its callback. -/
theorem onStateChange_checking_lifecycle_witness :
    (onStateChange .empty
        (mkMotionSensorRegistry [] ["motion-1"] 30000 true)
        (some (startChecking (mkCheckingSensorRegistry
          [⟨"motion-1", 30000⟩])))).1 = none ∧
    onStateChange .checking
        (mkMotionSensorRegistry [] ["motion-1"] 30000 true) none =
      (some (startChecking (mkCheckingSensorRegistry
        (getDeviceConfigs ["motion-1"] 30000
          (mkMotionSensorRegistry [] ["motion-1"] 30000
            true).timeoutLearning))), none) :=
  ⟨((onStateChange_checking_lifecycle .empty
      (mkMotionSensorRegistry [] ["motion-1"] 30000 true)
      (some (startChecking (mkCheckingSensorRegistry
        [⟨"motion-1", 30000⟩])))).2 (by decide)).1,
   (onStateChange_checking_lifecycle .checking
      (mkMotionSensorRegistry [] ["motion-1"] 30000 true) none).1 rfl⟩
/-! ## C5: the door barrier -/

/-- `isAllStateFalse` holds exactly when no cached value is `true`. -/
theorem isAllStateFalse_iff_trueKeys_nil (cache : SensorCache) :
    isAllStateFalse cache = true ↔ trueKeys cache = [] := by
  induction cache with
  | nil => simp [isAllStateFalse, trueKeys, getCapabilityStates]
  | cons p ps ih =>
      cases hb : p.2 with
      | true =>
          simp [isAllStateFalse, trueKeys, getCapabilityStates, hb]
      | false =>
          simpa [isAllStateFalse, trueKeys, getCapabilityStates, hb] using ih

/-- A cached-true id is a cached id. -/
theorem trueKeys_subset (cache : SensorCache) (x : String)
    (h : x ∈ trueKeys cache) : x ∈ mapKeys cache := by
  induction cache with
  | nil => exact absurd h (List.not_mem_nil x)
  | cons p ps ih =>
      have hcons : mapKeys (p :: ps) = p.1 :: mapKeys ps := rfl
      rw [hcons]
      cases hb : p.2 with
      | true =>
          rw [trueKeys, hb] at h
          simp only [if_true] at h
          rcases List.mem_cons.mp h with h1 | h1
          · exact h1 ▸ List.mem_cons_self _ _
          · exact List.mem_cons_of_mem _ (ih h1)
      | false =>
          rw [trueKeys, hb] at h
          simp at h
          exact List.mem_cons_of_mem _ (ih h)

/-- `Map.set` leaves the key list unchanged for an existing key and appends a
new key otherwise. -/
theorem mapKeys_mapSet (cache : SensorCache) (id : String) (v : Bool) :
    mapKeys (mapSet cache id v) =
      if id ∈ mapKeys cache then mapKeys cache else mapKeys cache ++ [id] := by
  induction cache with
  | nil => simp [mapKeys, mapSet]
  | cons p ps ih =>
      have hKc : mapKeys (p :: ps) = p.1 :: mapKeys ps := rfl
      by_cases h : p.1 = id
      · subst h
        have hmem : p.1 ∈ mapKeys (p :: ps) := by
          rw [hKc]; exact List.mem_cons_self _ _
        rw [if_pos hmem]
        have hset : mapSet (p :: ps) p.1 v = (p.1, v) :: ps := by
          simp [mapSet]
        rw [hset, hKc]
        rfl
      · have hcond : (id ∈ mapKeys (p :: ps)) ↔ id ∈ mapKeys ps := by
          rw [hKc, List.mem_cons]
          constructor
          · rintro (h1 | h1)
            · exact absurd h1.symm h
            · exact h1
          · exact fun h1 => Or.inr h1
        have hL : mapKeys (mapSet (p :: ps) id v) =
            p.1 :: mapKeys (mapSet ps id v) := by
          have hset : mapSet (p :: ps) id v = p :: mapSet ps id v := by
            simp [mapSet, h]
          rw [hset]
          rfl
        by_cases h2 : id ∈ mapKeys ps
        · rw [hL, ih, if_pos h2, if_pos (hcond.mpr h2), hKc]
        · rw [hL, ih, if_neg h2, if_neg (fun hh => h2 (hcond.mp hh)), hKc]
          rfl

/-- `Map.set` preserves duplicate-freedom of the key list. -/
theorem nodup_mapKeys_mapSet (cache : SensorCache) (id : String) (v : Bool)
    (h : (mapKeys cache).Nodup) : (mapKeys (mapSet cache id v)).Nodup := by
  rw [mapKeys_mapSet]
  by_cases hid : id ∈ mapKeys cache
  · rw [if_pos hid]; exact h
  · rw [if_neg hid]
    rw [List.nodup_append]
    refine ⟨h, List.nodup_singleton id, ?_⟩
    intro a ha hamem
    rw [List.mem_singleton] at hamem
    subst hamem
    exact hid ha

/-- Setting an id to `false` removes exactly that id from the cached-true
set (when the cache has duplicate-free keys). -/
theorem trueKeys_mapSet_false (cache : SensorCache) (id : String)
    (h : (mapKeys cache).Nodup) :
    trueKeys (mapSet cache id false) = (trueKeys cache).erase id := by
  induction cache with
  | nil => simp [trueKeys, mapSet]
  | cons p ps ih =>
      have hKc : mapKeys (p :: ps) = p.1 :: mapKeys ps := rfl
      rw [hKc] at h
      have hkey : p.1 ∉ mapKeys ps := (List.nodup_cons.mp h).1
      have hnd : (mapKeys ps).Nodup := (List.nodup_cons.mp h).2
      by_cases hp : p.1 = id
      · subst hp
        cases hb : p.2 with
        | true =>
            have hset : mapSet (p :: ps) p.1 false = (p.1, false) :: ps := by
              simp [mapSet]
            have htk : trueKeys (p :: ps) = p.1 :: trueKeys ps := by
              rw [trueKeys, hb]; simp
            rw [hset, htk, List.erase_cons_head]
            rw [trueKeys]
            simp
        | false =>
            have hnotin : p.1 ∉ trueKeys ps := fun hm =>
              hkey (trueKeys_subset ps p.1 hm)
            have hset : mapSet (p :: ps) p.1 false = (p.1, false) :: ps := by
              simp [mapSet]
            have htk : trueKeys (p :: ps) = trueKeys ps := by
              rw [trueKeys, hb]; simp
            rw [hset, htk, List.erase_of_not_mem hnotin]
            rw [trueKeys]
            simp
      · have hset : mapSet (p :: ps) id false = p :: mapSet ps id false := by
          simp [mapSet, hp]
        cases hb : p.2 with
        | true =>
            have htkL : trueKeys (p :: mapSet ps id false) =
                p.1 :: trueKeys (mapSet ps id false) := by
              rw [trueKeys, hb]; simp
            have htk : trueKeys (p :: ps) = p.1 :: trueKeys ps := by
              rw [trueKeys, hb]; simp
            rw [hset, htkL, ih hnd, htk, List.erase_cons_tail]
            simp [hp]
        | false =>
            have htkL : trueKeys (p :: mapSet ps id false) =
                trueKeys (mapSet ps id false) := by
              rw [trueKeys, hb]; simp
            have htk : trueKeys (p :: ps) = trueKeys ps := by
              rw [trueKeys, hb]; simp
            rw [hset, htkL, ih hnd, htk]

/-- Setting a not-yet-true id to `true` adds exactly that id to the
cached-true set, up to ordering. -/
theorem trueKeys_mapSet_true (cache : SensorCache) (id : String)
    (h : id ∉ trueKeys cache) :
    List.Perm (trueKeys (mapSet cache id true)) (id :: trueKeys cache) := by
  induction cache with
  | nil => simp [trueKeys, mapSet]
  | cons p ps ih =>
      by_cases hp : p.1 = id
      · subst hp
        cases hb : p.2 with
        | true =>
            refine absurd ?_ h
            rw [trueKeys, hb]
            simp
        | false =>
            rw [trueKeys, hb] at h
            simp at h
            have hset : mapSet (p :: ps) p.1 true = (p.1, true) :: ps := by
              simp [mapSet]
            have htk : trueKeys (p :: ps) = trueKeys ps := by
              rw [trueKeys, hb]; simp
            rw [hset, htk]
            rw [trueKeys]
            simp
      · have hset : mapSet (p :: ps) id true = p :: mapSet ps id true := by
          simp [mapSet, hp]
        cases hb : p.2 with
        | true =>
            have htk : trueKeys (p :: ps) = p.1 :: trueKeys ps := by
              rw [trueKeys, hb]; simp
            rw [htk] at h ⊢
            have hid2 : id ∉ trueKeys ps := fun hm =>
              h (List.mem_cons_of_mem _ hm)
            have htkL : trueKeys (p :: mapSet ps id true) =
                p.1 :: trueKeys (mapSet ps id true) := by
              rw [trueKeys, hb]; simp
            rw [hset, htkL]
            exact ((ih hid2).cons p.1).trans (List.Perm.swap id p.1 _)
        | false =>
            have htk : trueKeys (p :: ps) = trueKeys ps := by
              rw [trueKeys, hb]; simp
            rw [htk] at h ⊢
            have htkL : trueKeys (p :: mapSet ps id true) =
                trueKeys (mapSet ps id true) := by
              rw [trueKeys, hb]; simp
            rw [hset, htkL]
            exact ih h

/-- The emission trace of concatenated door-event sequences splits at the
intermediate cache. -/
theorem contactTrace_append (xs ys : List (String × Bool)) :
    ∀ c : SensorCache,
      contactTrace c (xs ++ ys) =
        contactTrace c xs ++ contactTrace (contactRun c xs) ys := by
  induction xs with
  | nil => intro c; rfl
  | cons e es ih =>
      intro c
      show (contactStep c e.1 e.2).2 :: contactTrace (contactStep c e.1 e.2).1 (es ++ ys) = _
      rw [ih (contactStep c e.1 e.2).1]
      rfl

/-- Every door-open event emits `any_door_open`, whatever the cache. -/
theorem contactTrace_opens (opens : List String) :
    ∀ c : SensorCache,
      contactTrace c (opens.map (fun id => (id, true))) =
        List.replicate opens.length (some EventType.any_door_open) := by
  induction opens with
  | nil => intro c; rfl
  | cons id ids ih =>
      intro c
      show (contactStep c id true).2 ::
          contactTrace (contactStep c id true).1 (ids.map (fun i => (i, true))) = _
      rw [ih]
      rfl

/-- After opening a duplicate-free list of doors none of which was cached
true, the cached-true set is exactly those doors plus whatever was true
before, and the cache keys stay duplicate-free. -/
theorem contactRun_opens (opens : List String) :
    ∀ c : SensorCache, (mapKeys c).Nodup → opens.Nodup →
      (∀ id ∈ opens, id ∉ trueKeys c) →
      (mapKeys (contactRun c (opens.map (fun id => (id, true))))).Nodup ∧
      List.Perm (trueKeys (contactRun c (opens.map (fun id => (id, true)))))
        (opens ++ trueKeys c) := by
  induction opens with
  | nil => intro c h1 _ _; exact ⟨h1, List.Perm.refl _⟩
  | cons id ids ih =>
      intro c h1 h2 h3
      have hid : id ∉ trueKeys c := h3 id (List.mem_cons_self _ _)
      have hkeys2 : (mapKeys (mapSet c id true)).Nodup :=
        nodup_mapKeys_mapSet c id true h1
      have htk : List.Perm (trueKeys (mapSet c id true)) (id :: trueKeys c) :=
        trueKeys_mapSet_true c id hid
      have h3b : ∀ x ∈ ids, x ∉ trueKeys (mapSet c id true) := by
        intro x hx hmem
        have hxid : x ≠ id := by
          intro hh
          subst hh
          exact (List.nodup_cons.mp h2).1 hx
        have hmem2 : x ∈ id :: trueKeys c := htk.mem_iff.mp hmem
        rcases List.mem_cons.mp hmem2 with hcase | hcase
        · exact hxid hcase
        · exact h3 x (List.mem_cons_of_mem _ hx) hcase
      have hrec := ih (mapSet c id true) hkeys2 (List.nodup_cons.mp h2).2 h3b
      have hrun : contactRun c ((id :: ids).map (fun i => (i, true))) =
          contactRun (mapSet c id true) (ids.map (fun i => (i, true))) := rfl
      rw [hrun]
      refine ⟨hrec.1, ?_⟩
      have hstep2 : List.Perm (ids ++ trueKeys (mapSet c id true))
          (ids ++ (id :: trueKeys c)) := List.Perm.append_left ids htk
      have hstep3 : List.Perm (ids ++ (id :: trueKeys c))
          (id :: (ids ++ trueKeys c)) := List.perm_middle
      exact (hrec.2.trans hstep2).trans hstep3

/-- Closing, in any order, exactly the doors whose cached value is true
emits nothing until the last close, which emits a single
`all_doors_closed`. -/
theorem contactTrace_closes (closes : List String) :
    ∀ (c : SensorCache) (R : List String),
      (mapKeys c).Nodup → List.Perm (trueKeys c) R → List.Perm closes R →
      closes ≠ [] →
      contactTrace c (closes.map (fun id => (id, false))) =
        List.replicate (closes.length - 1) none ++
          [some EventType.all_doors_closed] := by
  induction closes with
  | nil => intro c R _ _ _ hne; exact absurd rfl hne
  | cons id rest ih =>
      intro c R hk htR hcR _
      have hidR : id ∈ R := hcR.subset (List.mem_cons_self _ _)
      have htk2 : List.Perm (trueKeys (mapSet c id false)) (R.erase id) := by
        rw [trueKeys_mapSet_false c id hk]
        exact htR.erase id
      have hrest : List.Perm rest (R.erase id) := by
        have hRe : List.Perm R (id :: R.erase id) := List.perm_cons_erase hidR
        exact (List.perm_cons id).mp (hcR.trans hRe)
      have hstep : contactTrace c ((id :: rest).map (fun i => (i, false))) =
          handleContactSensorEvent (mapSet c id false) false ::
            contactTrace (mapSet c id false) (rest.map (fun i => (i, false))) := rfl
      rw [hstep]
      cases hre : rest with
      | nil =>
          rw [hre] at hrest
          have hRe : R.erase id = [] := List.perm_nil.mp hrest.symm
          have hall : isAllStateFalse (mapSet c id false) = true := by
            rw [isAllStateFalse_iff_trueKeys_nil]
            rw [hRe] at htk2
            exact List.perm_nil.mp htk2
          simp [handleContactSensorEvent, hall, contactTrace]
      | cons y ys =>
          have hRne : R.erase id ≠ [] := by
            intro hh
            rw [hh] at hrest
            rw [hre] at hrest
            exact absurd (List.perm_nil.mp hrest) (by simp)
          have hnall : isAllStateFalse (mapSet c id false) = false := by
            rw [Bool.eq_false_iff]
            intro hcontra
            have h2 := (isAllStateFalse_iff_trueKeys_nil _).mp hcontra
            rw [h2] at htk2
            exact hRne (List.perm_nil.mp htk2.symm)
          have hih := ih (mapSet c id false) (R.erase id)
            (nodup_mapKeys_mapSet c id false hk) htk2 hrest
            (by rw [hre]; simp)
          rw [hre] at hih
          rw [hih]
          have hout : handleContactSensorEvent (mapSet c id false) false = none := by
            simp [handleContactSensorEvent, hnall]
          rw [hout]
          simp [List.replicate_succ]

/-- C5: a door event with value `true` always emits `any_door_open`; a door
event with value `false` emits `all_doors_closed` exactly when
`isAllStateFalse()` holds on the just-updated cache (a door closing while
another door's cached value is still true emits nothing); and starting from
an all-false cache with duplicate-free keys, opening a nonempty
duplicate-free set of doors in any order and then closing them in any order
emits one `any_door_open` per open and exactly one `all_doors_closed`,
precisely at the last close. -/
theorem door_events_barrier (c0 : SensorCache) (S opens closes : List String)
    (hkeys : (mapKeys c0).Nodup) (hall : isAllStateFalse c0 = true)
    (hS : S.Nodup) (hSne : S ≠ [])
    (hopens : List.Perm opens S) (hcloses : List.Perm closes S) :
    (∀ (c : SensorCache) (id : String),
      (contactStep c id true).2 = some EventType.any_door_open) ∧
    (∀ (c : SensorCache) (id : String),
      ((contactStep c id false).2 = some EventType.all_doors_closed ↔
        isAllStateFalse (mapSet c id false) = true)) ∧
    contactTrace c0
        (opens.map (fun id => (id, true)) ++
          closes.map (fun id => (id, false))) =
      List.replicate opens.length (some EventType.any_door_open) ++
        (List.replicate (closes.length - 1) none ++
          [some EventType.all_doors_closed]) := by
  refine ⟨fun c id => rfl, fun c id => ?_, ?_⟩
  · cases h : isAllStateFalse (mapSet c id false) with
    | true => simp [contactStep, handleContactSensorEvent, h]
    | false => simp [contactStep, handleContactSensorEvent, h]
  · rw [contactTrace_append, contactTrace_opens]
    have h0 : trueKeys c0 = [] := (isAllStateFalse_iff_trueKeys_nil c0).mp hall
    have hOnodup : opens.Nodup := hopens.nodup_iff.mpr hS
    have hopen3 : ∀ id ∈ opens, id ∉ trueKeys c0 := by
      intro id _
      rw [h0]
      exact List.not_mem_nil id
    have hop := contactRun_opens opens c0 hkeys hOnodup hopen3
    have htkS : List.Perm
        (trueKeys (contactRun c0 (opens.map (fun id => (id, true))))) S := by
      have h1 := hop.2
      rw [h0, List.append_nil] at h1
      exact h1.trans hopens
    have hclne : closes ≠ [] := by
      intro hh
      rw [hh] at hcloses
      exact hSne (List.perm_nil.mp hcloses.symm)
    rw [contactTrace_closes closes
      (contactRun c0 (opens.map (fun id => (id, true)))) S hop.1 htkS hcloses
      hclne]

/-- Witness for C5: two doors, opened in order and closed in reverse order,
produce two `any_door_open` emissions and a single `all_doors_closed` at the
final close. -/
theorem door_events_barrier_witness :
    contactTrace [("door-1", false), ("door-2", false)]
        ((["door-1", "door-2"].map (fun id => (id, true))) ++
          (["door-2", "door-1"].map (fun id => (id, false)))) =
      List.replicate 2 (some EventType.any_door_open) ++
        (List.replicate 1 none ++ [some EventType.all_doors_closed]) :=
  (door_events_barrier [("door-1", false), ("door-2", false)]
    ["door-1", "door-2"] ["door-1", "door-2"] ["door-2", "door-1"]
    (by decide) (by decide) (by decide) (by decide)
    (List.Perm.refl _) (List.Perm.swap "door-1" "door-2" [])).2.2

/-! ## C7: `updateDeviceIds` listener lifecycle -/

/-- `removeListener` touches only the listener and device-name maps — never
the cached capability values or the configured id set. -/
theorem foldl_removeListener_frame (ids : List String) :
    ∀ r : SensorRegistryState,
      (ids.foldl removeListener r).capabilityState = r.capabilityState ∧
      (ids.foldl removeListener r).deviceIds = r.deviceIds := by
  induction ids with
  | nil => intro r; exact ⟨rfl, rfl⟩
  | cons i is ih =>
      intro r
      have h1 : (removeListener r i).capabilityState = r.capabilityState ∧
          (removeListener r i).deviceIds = r.deviceIds := by
        unfold removeListener
        split
        · exact ⟨rfl, rfl⟩
        · exact ⟨rfl, rfl⟩
      have h2 := ih (removeListener r i)
      exact ⟨h2.1.trans h1.1, h2.2.trans h1.2⟩

/-- After removing a list of ids, an id holds a listener exactly if it held
one before and was not removed (given a duplicate-free listener list, which
removal preserves). -/
theorem foldl_removeListener_listeners (ids : List String) :
    ∀ (r : SensorRegistryState), r.listeners.Nodup →
      ((ids.foldl removeListener r).listeners.Nodup ∧
       ∀ x, (x ∈ (ids.foldl removeListener r).listeners ↔
         x ∈ r.listeners ∧ x ∉ ids)) := by
  induction ids with
  | nil =>
      intro r h
      exact ⟨h, fun x => by simp⟩
  | cons i is ih =>
      intro r h
      have hstep : (removeListener r i).listeners.Nodup ∧
          ∀ x, (x ∈ (removeListener r i).listeners ↔
            x ∈ r.listeners ∧ x ≠ i) := by
        unfold removeListener
        split
        · next hin =>
            refine ⟨h.erase i, fun x => ?_⟩
            rw [List.Nodup.mem_erase_iff h]
            tauto
        · next hnin =>
            refine ⟨h, fun x => ?_⟩
            constructor
            · intro hx
              exact ⟨hx, fun hh => hnin (hh ▸ hx)⟩
            · exact fun hx => hx.1
      have hrec := ih (removeListener r i) hstep.1
      refine ⟨hrec.1, fun x => ?_⟩
      rw [List.foldl_cons, hrec.2 x, hstep.2 x, List.mem_cons]
      tauto

/-- An id holds a listener after `addListener` exactly if it already held
one, or it is the added id and the platform resolved it with the right
capability. -/
theorem addListener_listeners (env : DeviceEnv) (r : SensorRegistryState)
    (id x : String) :
    x ∈ (addListener env r id).listeners ↔
      x ∈ r.listeners ∨ (x = id ∧ (env id).isSome) := by
  unfold addListener
  cases henv : env id with
  | none => simp
  | some p =>
      simp only [Option.isSome_some, and_true]
      unfold insertKey
      split
      · next hin =>
          constructor
          · exact fun hx => Or.inl hx
          · rintro (hx | hx)
            · exact hx
            · exact hx ▸ hin
      · next hnin =>
          rw [List.mem_append, List.mem_singleton]

/-- `addListener` never changes the cached value of any other id, nor the
configured id set. -/
theorem addListener_frame (env : DeviceEnv) (r : SensorRegistryState)
    (id x : String) (hx : x ≠ id) :
    mapGet (addListener env r id).capabilityState x =
      mapGet r.capabilityState x ∧
    (addListener env r id).deviceIds = r.deviceIds := by
  unfold addListener
  cases henv : env id with
  | none => exact ⟨rfl, rfl⟩
  | some p =>
      obtain ⟨nm, v⟩ := p
      cases hv : v with
      | none => exact ⟨rfl, rfl⟩
      | some b =>
          refine ⟨?_, rfl⟩
          show mapGet (mapSet r.capabilityState id b) x = _
          exact mapGet_mapSet_other _ _ _ _ hx

/-- The cached value of the added id after `addListener`: seeded from the
platform's current value when resolution succeeds and the value is
non-null, untouched otherwise. -/
theorem addListener_cache_self (env : DeviceEnv) (r : SensorRegistryState)
    (id : String) :
    mapGet (addListener env r id).capabilityState id =
      (match env id with
       | some (_, some b) => some b
       | _ => mapGet r.capabilityState id) := by
  unfold addListener
  cases henv : env id with
  | none => rfl
  | some p =>
      obtain ⟨nm, v⟩ := p
      cases hv : v with
      | none => rfl
      | some b => exact mapGet_mapSet_self _ _ _

/-- `addListener` keeps the configured id set. -/
theorem foldl_addListener_deviceIds (env : DeviceEnv) (ids : List String) :
    ∀ r : SensorRegistryState,
      (ids.foldl (addListener env) r).deviceIds = r.deviceIds := by
  induction ids with
  | nil => intro r; rfl
  | cons i is ih =>
      intro r
      have h1 : (addListener env r i).deviceIds = r.deviceIds := by
        unfold addListener
        cases env i with
        | none => rfl
        | some p => rfl
      rw [List.foldl_cons, ih (addListener env r i), h1]

/-- Listener membership after adding a list of ids. -/
theorem foldl_addListener_listeners (env : DeviceEnv) (ids : List String) :
    ∀ (r : SensorRegistryState) (x : String),
      (x ∈ (ids.foldl (addListener env) r).listeners ↔
        x ∈ r.listeners ∨ (x ∈ ids ∧ (env x).isSome)) := by
  induction ids with
  | nil => intro r x; simp
  | cons i is ih =>
      intro r x
      rw [List.foldl_cons, ih (addListener env r i) x, addListener_listeners]
      by_cases hx : x = i
      · subst hx
        simp only [List.mem_cons, true_or, true_and]
        tauto
      · simp only [List.mem_cons]
        tauto

/-- Cached values after adding a list of ids: an added, resolvable id with a
non-null current value is seeded with that value; every other id keeps its
cached value. -/
theorem foldl_addListener_cache (env : DeviceEnv) (ids : List String) :
    ∀ (r : SensorRegistryState) (x : String),
      mapGet (ids.foldl (addListener env) r).capabilityState x =
        (if x ∈ ids then
          (match env x with
           | some (_, some b) => some b
           | _ => mapGet r.capabilityState x)
         else mapGet r.capabilityState x) := by
  induction ids with
  | nil => intro r x; simp
  | cons i is ih =>
      intro r x
      rw [List.foldl_cons, ih (addListener env r i) x]
      by_cases hx : x = i
      · subst hx
        rw [if_pos (List.mem_cons_self x is)]
        have hself := addListener_cache_self env r x
        cases henv : env x with
        | none =>
            rw [henv] at hself
            simp [hself]
        | some p =>
            obtain ⟨nm, v⟩ := p
            cases hv : v with
            | none =>
                rw [henv, hv] at hself
                simp [hself]
            | some b =>
                rw [henv, hv] at hself
                simp [hself]
      · have hframe := (addListener_frame env r i x hx).1
        rw [hframe]
        simp [List.mem_cons, hx]

/-- Full pointwise characterization of `updateDeviceIds`: listener
membership and cached values of the result depend only on the incoming
state, the environment, and membership of ids in the old and new sets. -/
theorem updateDeviceIds_char (env : DeviceEnv) (r : SensorRegistryState)
    (newIds : List String) (hl : r.listeners.Nodup) (x : String) :
    (x ∈ (updateDeviceIds env r newIds).listeners ↔
      ((x ∈ r.listeners ∧ ¬(x ∈ r.deviceIds ∧ x ∉ newIds)) ∨
        (x ∈ newIds ∧ x ∉ r.deviceIds ∧ (env x).isSome))) ∧
    mapGet (updateDeviceIds env r newIds).capabilityState x =
      (if x ∈ newIds ∧ x ∉ r.deviceIds then
        (match env x with
         | some (_, some b) => some b
         | _ => mapGet r.capabilityState x)
       else mapGet r.capabilityState x) ∧
    (updateDeviceIds env r newIds).deviceIds = newIds := by
  have hrm := foldl_removeListener_listeners
    (r.deviceIds.filter (fun id => id ∉ newIds)) r hl
  have hrmf := foldl_removeListener_frame
    (r.deviceIds.filter (fun id => id ∉ newIds)) r
  have hmemrm : ∀ y : String,
      (y ∈ r.deviceIds.filter (fun id => id ∉ newIds)) ↔
        (y ∈ r.deviceIds ∧ y ∉ newIds) := by
    intro y
    simp [List.mem_filter]
  have hmemadd : ∀ y : String,
      (y ∈ newIds.filter (fun id => id ∉ r.deviceIds)) ↔
        (y ∈ newIds ∧ y ∉ r.deviceIds) := by
    intro y
    simp [List.mem_filter]
  set r1 := (r.deviceIds.filter (fun id => id ∉ newIds)).foldl removeListener r
    with hr1
  have hlis := foldl_addListener_listeners env
    (newIds.filter (fun id => id ∉ r.deviceIds)) r1 x
  have hcache := foldl_addListener_cache env
    (newIds.filter (fun id => id ∉ r.deviceIds)) r1 x
  have hdev := foldl_addListener_deviceIds env
    (newIds.filter (fun id => id ∉ r.deviceIds)) r1
  refine ⟨?_, ?_, rfl⟩
  · show x ∈ ((newIds.filter (fun id => id ∉ r.deviceIds)).foldl
      (addListener env) r1).listeners ↔ _
    rw [hlis, hrm.2 x, hmemadd x]
    constructor
    · rintro (⟨h1, h2⟩ | h1)
      · exact Or.inl ⟨h1, fun hh => h2 ((hmemrm x).mpr hh)⟩
      · exact Or.inr ⟨h1.1.1, h1.1.2, h1.2⟩
    · rintro (⟨h1, h2⟩ | h1)
      · exact Or.inl ⟨h1, fun hh => h2 ((hmemrm x).mp hh)⟩
      · exact Or.inr ⟨⟨h1.1, h1.2.1⟩, h1.2.2⟩
  · show mapGet ((newIds.filter (fun id => id ∉ r.deviceIds)).foldl
      (addListener env) r1).capabilityState x = _
    rw [hcache, hrmf.1]
    by_cases hcond : x ∈ newIds ∧ x ∉ r.deviceIds
    · rw [if_pos ((hmemadd x).mpr hcond), if_pos hcond]
    · rw [if_neg (fun hh => hcond ((hmemadd x).mp hh)), if_neg hcond]

/-- C7 counterexample: removing a device whose cached value is `true` via
`updateDeviceIds` destroys its listener, but the cached-value entry is NOT
dropped — `removeListener` never touches `capabilityState` — so the removed
device's last value keeps `isAnyStateTrue` true. -/
theorem updateDeviceIds_cache_retained_counterexample :
    mapGet (updateDeviceIds (fun _ => none)
        { deviceIds := ["door-1"], listeners := ["door-1"],
          capabilityState := [("door-1", true)],
          deviceNames := [("door-1", "Door 1")] } []).capabilityState
      "door-1" = some true ∧
    isAnyStateTrue (updateDeviceIds (fun _ => none)
        { deviceIds := ["door-1"], listeners := ["door-1"],
          capabilityState := [("door-1", true)],
          deviceNames := [("door-1", "Door 1")] } []).capabilityState = true ∧
    "door-1" ∉ (updateDeviceIds (fun _ => none)
        { deviceIds := ["door-1"], listeners := ["door-1"],
          capabilityState := [("door-1", true)],
          deviceNames := [("door-1", "Door 1")] } []).listeners := by
  refine ⟨by decide, by decide, by decide⟩

/-- C7 (amended): after `updateDeviceIds(newIds)`, every id of the old set
absent from `newIds` has its live listener destroyed but its cached-value
entry retained (the last value keeps influencing the aggregate predicates);
ids present in both sets keep their listener and cached value unchanged; the
configured set becomes `newIds`; and the result is independent — pointwise
in listeners, cached values and configured ids — of the order the ids
appear in. -/
theorem updateDeviceIds_listener_lifecycle (env : DeviceEnv)
    (r : SensorRegistryState) (newIds : List String)
    (hl : r.listeners.Nodup) :
    (∀ id, id ∈ r.deviceIds → id ∉ newIds →
      id ∉ (updateDeviceIds env r newIds).listeners ∧
      mapGet (updateDeviceIds env r newIds).capabilityState id =
        mapGet r.capabilityState id) ∧
    (∀ id, id ∈ r.deviceIds → id ∈ newIds →
      ((id ∈ (updateDeviceIds env r newIds).listeners ↔ id ∈ r.listeners) ∧
       mapGet (updateDeviceIds env r newIds).capabilityState id =
         mapGet r.capabilityState id)) ∧
    (updateDeviceIds env r newIds).deviceIds = newIds ∧
    (∀ newIds' : List String, List.Perm newIds' newIds → ∀ x : String,
      ((x ∈ (updateDeviceIds env r newIds').listeners ↔
         x ∈ (updateDeviceIds env r newIds).listeners) ∧
       mapGet (updateDeviceIds env r newIds').capabilityState x =
         mapGet (updateDeviceIds env r newIds).capabilityState x ∧
       ((x ∈ (updateDeviceIds env r newIds').deviceIds) ↔
         x ∈ (updateDeviceIds env r newIds).deviceIds))) := by
  refine ⟨?_, ?_, rfl, ?_⟩
  · intro id h1 h2
    have hc := updateDeviceIds_char env r newIds hl id
    constructor
    · intro hmem
      rcases hc.1.mp hmem with ⟨_, hno⟩ | ⟨hin, _⟩
      · exact hno ⟨h1, h2⟩
      · exact h2 hin
    · rw [hc.2.1, if_neg (fun hh => hh.2 h1)]
  · intro id h1 h2
    have hc := updateDeviceIds_char env r newIds hl id
    constructor
    · rw [hc.1]
      constructor
      · rintro (⟨hmem, _⟩ | ⟨_, hnd, _⟩)
        · exact hmem
        · exact absurd h1 hnd
      · intro hmem
        exact Or.inl ⟨hmem, fun hh => hh.2 h2⟩
    · rw [hc.2.1, if_neg (fun hh => hh.2 h1)]
  · intro newIds' hperm x
    have hc1 := updateDeviceIds_char env r newIds' hl x
    have hc2 := updateDeviceIds_char env r newIds hl x
    have hmem : (x ∈ newIds') ↔ (x ∈ newIds) := hperm.mem_iff
    refine ⟨?_, ?_, ?_⟩
    · rw [hc1.1, hc2.1]
      simp only [hmem]
    · rw [hc1.2.1, hc2.2.1]
      simp only [hmem]
    · rw [hc1.2.2, hc2.2.2]
      exact hperm.mem_iff

/-- Witness for C7's amended theorem: removing the only configured door
destroys its listener while its cached `true` value survives. -/
theorem updateDeviceIds_listener_lifecycle_witness :
    "door-1" ∉ (updateDeviceIds (fun _ => none)
        { deviceIds := ["door-1"], listeners := ["door-1"],
          capabilityState := [("door-1", true)],
          deviceNames := [("door-1", "Door 1")] } []).listeners ∧
    mapGet (updateDeviceIds (fun _ => none)
        { deviceIds := ["door-1"], listeners := ["door-1"],
          capabilityState := [("door-1", true)],
          deviceNames := [("door-1", "Door 1")] } []).capabilityState
      "door-1" = mapGet [("door-1", true)] "door-1" :=
  (updateDeviceIds_listener_lifecycle (fun _ => none)
    { deviceIds := ["door-1"], listeners := ["door-1"],
      capabilityState := [("door-1", true)],
      deviceNames := [("door-1", "Door 1")] } [] (by decide)).1
    "door-1" (by decide) (by decide)
